import Mathlib

set_option maxHeartbeats 1000000

namespace Seqproc

/-! Shallow embedding of the seqproc core (src/lib.rs): the geometry-string
parser and the segment compiler.  The fluent antisequence pipeline
(`Box<dyn Reads>`) is modelled as an ordered list of abstract operations;
Rust panics are modelled as `Except.error` (compiler) or a dedicated
`panic` result (parser). -/

/-- Payload data attached to segments (src/lib.rs `SegmentData`):
`Num` holds a `usize` (modelled as `Nat`; the integer sub-parser enforces
the 64-bit bound, see `USIZE_MAX`), `Label` an identifier, `Sequence` a
nucleotide string. -/
inductive SegmentData where
  | Num (n : Nat)
  | Label (s : String)
  | Sequence (s : String)
deriving Repr, DecidableEq

/-- Simple representation of a range (src/lib.rs `Range`), inclusive bounds. -/
structure Range where
  «from» : Nat
  «to» : Nat
deriving Repr, DecidableEq

/-- Primitive segment type (src/lib.rs `SegmentType`). -/
inductive SegmentType where
  | Barcode
  | UMI
  | Sequence
  | Read
  | Discard
deriving Repr, DecidableEq

/-- Simple annotation of a primitive (src/lib.rs `Segment`). -/
inductive Segment where
  | FixedLength (ty : SegmentType) (d : SegmentData)
  | FixedSequence (ty : SegmentType) (d : SegmentData)
  | Ranged (ty : SegmentType) (r : Range)
  | Unbounded (ty : SegmentType)
deriving Repr, DecidableEq

/-- src/lib.rs `BoundedSegment`. -/
inductive BoundedSegment where
  | Fixed (s : Segment)
  | VariableLenToSequence (variable_seg : Segment) (fixed_seg : Segment)
deriving Repr, DecidableEq

/-- src/lib.rs `SegmentComposite`. -/
inductive SegmentComposite where
  | BoundedToMaybeRangedOrUnbounded (bs : List BoundedSegment) (vs : Option Segment)
  | VariableLen (s : Segment)
deriving Repr, DecidableEq

/-- src/lib.rs `ReadDescription`. -/
structure ReadDescription where
  num : SegmentData
  description : SegmentComposite
deriving Repr, DecidableEq

/-- Alignment mode passed to the external matcher (antisequence `MatchType`);
only the two variants constructed in src/lib.rs are modelled.  The `f64`
identity/overlap thresholds are modelled as rationals (the source only ever
uses the exactly-representable `1.0`). -/
inductive MatchType where
  | PrefixAln (identity overlap : Rat)
  | LocalAln (identity overlap : Rat)
deriving Repr, DecidableEq

/-- Cut index (antisequence `EndIdx`); only `LeftEnd` is used in src/lib.rs. -/
inductive EndIdx where
  | LeftEnd (n : Nat)
deriving Repr, DecidableEq

/-- Length bound passed to `length_in_bounds`: the source uses the Rust range
values `n..=n` (inclusive upper bound) and `from..to + 1` (exclusive upper
bound). -/
inductive Bound where
  | inclusiveRange (lo hi : Nat)
  | halfOpenRange (lo hi : Nat)
deriving Repr, DecidableEq

/-- One abstract operation appended to the antisequence pipeline.  A pipeline
is the ordered list of such operations; every method call on the fluent
`Box<dyn Reads>` builder in the source appends exactly one operation.
Selector, transform and label expressions are kept as the strings the source
builds (their `Label::new`/`TransformExpr::new` constructors always succeed on
the generated names). -/
inductive Op where
  | cut (transform : String) (index : EndIdx)
  | match_any (transform : String) (pat : String) (match_type : MatchType)
  | retain (selector : String)
  | length_in_bounds (transform : String) (bound : Bound)
  | pad (labels : List String) (to_length : Nat)
  | trim (labels : List String)
deriving Repr, DecidableEq

/-- src/lib.rs `SegmentType::new`; the catch-all arm panics. -/
def SegmentType.new (segment_type : Char) : Except String SegmentType :=
  match segment_type with
  | 'b' => .ok .Barcode
  | 'u' => .ok .UMI
  | 'x' => .ok .Discard
  | 'r' => .ok .Read
  | 'f' => .ok .Sequence
  | c => .error ("Unexpected type: " ++ String.mk [c])

/-- src/lib.rs `Segment::new_ranged`; panics unless both bounds are `Num`. -/
def Segment.new_ranged (segment_type : Char) (f t : SegmentData) : Except String Segment :=
  match f, t with
  | .Num f, .Num t => (SegmentType.new segment_type).map (fun st => .Ranged st ⟨f, t⟩)
  | _, _ => .error "expected valid range"

/-- Rust `str::contains(char)`, computed on the character list (the
`String.contains` of the Lean core library does not reduce definitionally). -/
def containsChar (s : String) (c : Char) : Bool := s.toList.contains c

/-- src/lib.rs `cut`: `read.cut(sel!(), transform, index)`. -/
def cut (read : List Op) (cut_transform_expression : String) (cut_index : EndIdx) : List Op :=
  read ++ [Op.cut cut_transform_expression cut_index]

/-- src/lib.rs `trim`: `read.trim(sel!(), labels)`. -/
def trim (read : List Op) (labels : List String) : List Op :=
  read ++ [Op.trim labels]

/-- src/lib.rs `pad`: `read.pad(sel!(), labels, to_length)`. -/
def pad (read : List Op) (labels : List String) (to_length : Nat) : List Op :=
  read ++ [Op.pad labels to_length]

/-- src/lib.rs `match_pattern`:
`trim(read.match_any(sel!(), transform, pattern, match_type).retain(selector), trim_labels)`. -/
def match_pattern (read : List Op) (transform_expression : String)
    (selector_expression : String) (pat : String) (match_type : MatchType)
    (trim_labels : List String) : List Op :=
  trim (read ++ [Op.match_any transform_expression pat match_type,
                 Op.retain selector_expression]) trim_labels

/-- src/lib.rs `validate_length`:
`read.length_in_bounds(sel!(), transform, bound).retain(selector)`. -/
def validate_length (read : List Op) (length_transform_expression : String)
    (selector_expression : String) (bound : Bound) : List Op :=
  read ++ [Op.length_in_bounds length_transform_expression bound,
           Op.retain selector_expression]

/-- src/lib.rs `make_label`. -/
def make_label (pre suf : String) : String := pre ++ "_" ++ suf

/-- src/lib.rs `process_sequence`.  The transform expression depends on the
alignment mode; the unreachable catch-all (other antisequence match types)
and the `TransformExpr` error arm are not representable here because only the
two modelled match types are ever constructed and the generated transform
strings are always valid. -/
def process_sequence (pipeline : List Op) (sequence : String)
    (starting_label : String) (label : String) (match_type : MatchType) : List Op :=
  let transform := match match_type with
    | .PrefixAln _ _ =>
        starting_label ++ " -> " ++ label ++ "_anchor, " ++ label ++ "_r"
    | .LocalAln _ _ =>
        starting_label ++ " -> " ++ label ++ "_l, " ++ label ++ "_anchor, " ++ label ++ "_r"
  let pat := "\n    name: _anchor\n    patterns:\n        - pattern: \"" ++ sequence ++ "\"\n"
  let match_selector_expression := label ++ "_anchor"
  let labels := [label ++ "_anchor"]
  match_pattern pipeline transform match_selector_expression pat match_type labels

/-- src/lib.rs `cut_sequence`. -/
def cut_sequence (pipeline : List Op) (starting_label : String) (label : String)
    (index : EndIdx) : List Op :=
  cut pipeline (starting_label ++ " -> " ++ label ++ "_l, " ++ label ++ "_r") index

/-- src/lib.rs `validate_sequence_length`. -/
def validate_sequence_length (pipeline : List Op) (label : String) (bound : Bound) : List Op :=
  validate_length pipeline (label ++ "_l -> " ++ label ++ "_l.v_len")
    (label ++ "_l.v_len") bound

/-- src/lib.rs `process_fixed_segment_alone`; the panicking arms become
`Except.error` with the panic message. -/
def process_fixed_segment_alone (pipeline : List Op) (fixed_segment : Segment)
    (starting_label : String) (label : String) : Except String (List Op) :=
  match fixed_segment with
  | .FixedLength segment_type d =>
      match d with
      | .Num n =>
          let pipeline := validate_sequence_length
            (cut_sequence pipeline starting_label label (.LeftEnd n)) label
            (.inclusiveRange n n)
          match segment_type with
          | .Discard => .ok (trim pipeline [make_label label "l"])
          | _ => .ok pipeline
      | d => .error ("Expected a number, found: " ++ reprStr d)
  | .FixedSequence _ d =>
      match d with
      | .Sequence s =>
          .ok (process_sequence pipeline s starting_label label (.PrefixAln 1 1))
      | d => .error ("Expected a number, found: " ++ reprStr d)
  | fixed_segment => .error ("Expected a fixed segment, found: " ++ reprStr fixed_segment)

/-- src/lib.rs `process_variable_then_fixed`. -/
def process_variable_then_fixed (pipeline : List Op) (seq_segment : Segment)
    (variable_segment : Segment) (starting_label : String) (label : String) :
    Except String (List Op) :=
  match seq_segment with
  | .FixedSequence _ (.Sequence sequence) =>
      let pipeline := process_sequence pipeline sequence starting_label label (.LocalAln 1 1)
      match variable_segment with
      | .Ranged segment_type r =>
          let pipeline := validate_sequence_length pipeline label
            (.halfOpenRange r.«from» (r.«to» + 1))
          let labels := [make_label label "l"]
          match segment_type with
          | .Discard => .ok (trim pipeline labels)
          | _ => .ok (pad pipeline labels (r.«to» + 1))
      | .Unbounded segment_type =>
          match segment_type with
          | .Discard => .ok (trim pipeline [make_label label "l"])
          | _ => .ok pipeline
      | variable_segment =>
          .error ("Expected a ranged or unbounded segment, found: " ++ reprStr variable_segment)
  | seq_segment =>
      .error ("Expected a fixed sequence segment, found: " ++ reprStr seq_segment)

/-- src/lib.rs `process_ending_variable_segment`. -/
def process_ending_variable_segment (pipeline : List Op) (segment : Segment)
    (label : String) : Except String (List Op) :=
  let starting_label := if containsChar label '_' then label else label ++ "*"
  match segment with
  | .Unbounded segment_type =>
      match segment_type with
      | .Discard => .ok (trim pipeline [label])
      | _ => .ok pipeline
  | .Ranged segment_type r =>
      match segment_type with
      | .Discard => .ok (trim pipeline [label])
      | _ =>
          let pipeline := validate_sequence_length
            (cut_sequence pipeline starting_label label (.LeftEnd r.«to»)) label
            (.halfOpenRange r.«from» (r.«to» + 1))
          .ok (trim (pad pipeline [make_label label "l"] (r.«to» + 1))
                [make_label label "r"])
  | segment => .error ("Expected a variable segment, recieved: " ++ reprStr segment)

/-- src/lib.rs `process_bounded_segment`. -/
def process_bounded_segment (pipeline : List Op) (bounded_segment : BoundedSegment)
    (label : String) : Except String (List Op) :=
  let starting_label := if containsChar label '_' then label else label ++ "*"
  match bounded_segment with
  | .Fixed fixed_seg => process_fixed_segment_alone pipeline fixed_seg starting_label label
  | .VariableLenToSequence variable_seg fixed_seg =>
      process_variable_then_fixed pipeline fixed_seg variable_seg starting_label label

/-- The `for bounded_segment in bounded_segments` loop inside
`ReadDescription::build_pipeline`: processes each bounded segment with the
current joined label and then pushes `"r"` onto the label vector. -/
def buildBoundedLoop (pipeline : List Op) (labelList : List String) :
    List BoundedSegment → Except String (List Op × List String)
  | [] => .ok (pipeline, labelList)
  | b :: rest =>
      match process_bounded_segment pipeline b (String.intercalate "_" labelList) with
      | .error e => .error e
      | .ok p => buildBoundedLoop p (labelList ++ ["r"]) rest

/-- src/lib.rs `ReadDescription::build_pipeline`. -/
def ReadDescription.build_pipeline (self : ReadDescription) (fastq_read : List Op) :
    Except String (List Op) :=
  match self.num with
  | .Num num =>
      let seq_identifier := "seq" ++ toString num ++ "."
      match self.description with
      | .BoundedToMaybeRangedOrUnbounded bounded_segments variable_segment =>
          match buildBoundedLoop fastq_read [seq_identifier] bounded_segments with
          | .error e => .error e
          | .ok (pipeline, label) =>
              match variable_segment with
              | some segment =>
                  process_ending_variable_segment pipeline segment
                    (String.intercalate "_" label)
              | none => .ok (trim pipeline [String.intercalate "_" label])
      | .VariableLen segment =>
          process_ending_variable_segment fastq_read segment
            (String.intercalate "_" [seq_identifier])
  | d => .error ("Expected a number, found: " ++ reprStr d)

/-! The geometry-string parser (src/lib.rs `parser`), a shallow embedding of
the chumsky 0.9 combinator expression.  Parsers are functions from the
remaining input to a result; `or` is backtracking ordered choice, `repeated`
is greedy, exactly as in chumsky.  A Rust panic raised inside a `map` closure
(the `parse().unwrap()` on integer overflow, `SegmentType::new`,
`Segment::new_ranged`) is a `panic` result that propagates through every
combinator instead of being caught as a parse failure. -/

/-- Result of running a parser: success with the remaining input, a parse
failure, or a propagating Rust panic. -/
inductive PResult (α : Type) where
  | ok (val : α) (rest : List Char)
  | fail
  | panic (msg : String)
deriving Repr, DecidableEq

/-- A parser over characters. -/
def P (α : Type) : Type := List Char → PResult α

/-- chumsky `just(c)`. -/
def pJust (c : Char) : P Char := fun s =>
  match s with
  | c' :: rest => if c' = c then .ok c rest else .fail
  | [] => .fail

/-- chumsky `one_of(cs)`. -/
def pOneOf (cs : List Char) : P Char := fun s =>
  match s with
  | c :: rest => if c ∈ cs then .ok c rest else .fail
  | [] => .fail

/-- chumsky `.map(f)`. -/
def pMap (p : P α) (f : α → β) : P β := fun s =>
  match p s with
  | .ok a rest => .ok (f a) rest
  | .fail => .fail
  | .panic m => .panic m

/-- chumsky `.map(f)` where the Rust closure `f` may panic. -/
def pMapExcept (p : P α) (f : α → Except String β) : P β := fun s =>
  match p s with
  | .ok a rest =>
      match f a with
      | .ok b => .ok b rest
      | .error m => .panic m
  | .fail => .fail
  | .panic m => .panic m

/-- chumsky `.then(q)`. -/
def pThen (p : P α) (q : P β) : P (α × β) := fun s =>
  match p s with
  | .ok a s1 =>
      match q s1 with
      | .ok b s2 => .ok (a, b) s2
      | .fail => .fail
      | .panic m => .panic m
  | .fail => .fail
  | .panic m => .panic m

/-- chumsky `.then_ignore(q)`. -/
def pThenIgnore (p : P α) (q : P β) : P α := pMap (pThen p q) Prod.fst

/-- chumsky `.ignore_then(q)`. -/
def pIgnoreThen (p : P α) (q : P β) : P β := pMap (pThen p q) Prod.snd

/-- chumsky `.or(q)`: backtracking ordered choice; a panic is not caught. -/
def pOr (p q : P α) : P α := fun s =>
  match p s with
  | .ok a rest => .ok a rest
  | .panic m => .panic m
  | .fail => q s

/-- chumsky `.or_not()`. -/
def pOrNot (p : P α) : P (Option α) := fun s =>
  match p s with
  | .ok a rest => .ok (some a) rest
  | .panic m => .panic m
  | .fail => .ok none s

/-- chumsky `end()`. -/
def pEnd : P Unit := fun s =>
  match s with
  | [] => .ok () []
  | _ => .fail

/-- chumsky `.delimited_by(l, r)`. -/
def pDelimitedBy (p : P α) (l : P β) (r : P γ) : P α :=
  pThenIgnore (pIgnoreThen l p) r

/-- chumsky `.repeated()`, fuelled.  Every repeated inner parser of this
grammar consumes at least one character on success, so the fuel
`input length + 1` used by `pRepeated` can never run out. -/
def pRepeatedFuel (p : P α) : Nat → P (List α)
  | 0 => fun s => .ok [] s
  | fuel + 1 => fun s =>
      match p s with
      | .ok a s1 =>
          match pRepeatedFuel p fuel s1 with
          | .ok as s2 => .ok (a :: as) s2
          | .fail => .fail
          | .panic m => .panic m
      | .fail => .ok [] s
      | .panic m => .panic m

/-- chumsky `.repeated()`: greedy, zero or more. -/
def pRepeated (p : P α) : P (List α) := fun s => pRepeatedFuel p (s.length + 1) s

/-- chumsky `.repeated().at_least(1)`: greedy parse, then the count check. -/
def pAtLeast1 (p : P α) : P (List α) := fun s =>
  match pRepeated p s with
  | .ok as rest => if 1 ≤ as.length then .ok as rest else .fail
  | .fail => .fail
  | .panic m => .panic m

/-- chumsky `.repeated().exactly(2)`: parses at most two repetitions and
fails unless both succeed. -/
def pExactly2 (p : P α) : P (List α) := fun s =>
  match p s with
  | .ok a s1 =>
      match p s1 with
      | .ok b s2 => .ok [a, b] s2
      | .fail => .fail
      | .panic m => .panic m
  | .fail => .fail
  | .panic m => .panic m

/-- Rust `char::is_whitespace` (the Unicode White_Space property), used by
chumsky `.padded()`. -/
def isWhitespaceRust (c : Char) : Bool :=
  let n := c.toNat
  (0x09 ≤ n && n ≤ 0x0d) || n = 0x20 || n = 0x85 || n = 0xA0 ||
  n = 0x1680 || (0x2000 ≤ n && n ≤ 0x200A) ||
  n = 0x2028 || n = 0x2029 || n = 0x202F || n = 0x205F || n = 0x3000

/-- Maximal whitespace skip, the effect of chumsky's `whitespace()`. -/
def skipWhitespace (s : List Char) : List Char := s.dropWhile isWhitespaceRust

/-- chumsky `.padded()`: optional whitespace on both sides. -/
def pPadded (p : P α) : P α := fun s =>
  match p (skipWhitespace s) with
  | .ok a rest => .ok a (skipWhitespace rest)
  | .fail => .fail
  | .panic m => .panic m

/-- First character of a chumsky `text::ident()` (ASCII alphabetic or `_`). -/
def identStart (c : Char) : Bool := c.isAlpha || c = '_'

/-- Continuation character of a chumsky `text::ident()`. -/
def identCont (c : Char) : Bool := c.isAlphanum || c = '_'

/-- chumsky `text::ident()`: one C-like identifier. -/
def pIdentOne : P (List Char) := fun s =>
  match s with
  | c :: rest =>
      if identStart c then .ok (c :: rest.takeWhile identCont) (rest.dropWhile identCont)
      else .fail
  | [] => .fail

/-- src/lib.rs `ident`: `text::ident().repeated().collect::<String>()
.map(SegmentData::Label).delimited_by(just('<'), just('>'))`. -/
def pLabel : P SegmentData :=
  pDelimitedBy
    (pMap (pRepeated pIdentOne) (fun ls => SegmentData.Label (String.mk ls.flatten)))
    (pJust '<') (pJust '>')

/-- Numeric value of a decimal digit string. -/
def digitsToNat (ds : List Char) : Nat :=
  ds.foldl (fun a c => a * 10 + (c.toNat - 48)) 0

/-- Maximum value of Rust `usize` on the (64-bit) compilation target. -/
def USIZE_MAX : Nat := 2 ^ 64 - 1

/-- chumsky `text::int(10)`: a nonzero digit followed by digits, or a single
`0`; yields the digit characters. -/
def pRawInt : P (List Char) :=
  pOr
    (fun s =>
      match s with
      | c :: rest =>
          if c.isDigit && c ≠ '0' then
            .ok (c :: rest.takeWhile Char.isDigit) (rest.dropWhile Char.isDigit)
          else .fail
      | [] => .fail)
    (pMap (pJust '0') (fun c => [c]))

/-- src/lib.rs `int`: `text::int(10).map(|s| SegmentData::Num(s.parse().unwrap()))`.
`str::parse::<usize>` fails on values above `usize::MAX` and the `unwrap`
then panics instead of producing a parse error. -/
def pInt : P SegmentData :=
  pMapExcept pRawInt (fun ds =>
    if digitsToNat ds ≤ USIZE_MAX then .ok (SegmentData.Num (digitsToNat ds))
    else .error "called Result::unwrap() on an Err value: ParseIntError")

/-- Membership in the nucleotide alphabet `one_of("ATGC")`. -/
def isNucleotide (c : Char) : Bool := c = 'A' || c = 'T' || c = 'G' || c = 'C'

/-- src/lib.rs `nucleotide_sequence`:
`one_of("ATGC").repeated().collect::<String>().map(SegmentData::Sequence)`;
greedily takes the maximal (possibly empty) run of nucleotide characters. -/
def pNucleotideSequence : P SegmentData := fun s =>
  .ok (SegmentData.Sequence (String.mk (s.takeWhile isNucleotide)))
    (s.dropWhile isNucleotide)

/-- src/lib.rs `fixed`. -/
def pFixed : P Segment :=
  pMapExcept
    (pThenIgnore
      (pThen
        (pThenIgnore (pThen (pOneOf ['b', 'u', 'r', 'x']) (pOrNot pLabel)) (pJust '['))
        pInt)
      (pJust ']'))
    (fun x => (SegmentType.new x.1.1).map (fun st => Segment.FixedLength st x.2))

/-- src/lib.rs `fixed_sequence`. -/
def pFixedSequence : P Segment :=
  pMap
    (pThen (pThen (pJust 'f') (pOrNot pLabel))
      (pDelimitedBy pNucleotideSequence (pJust '[') (pJust ']')))
    (fun x => Segment.FixedSequence SegmentType.Sequence x.2)

/-- src/lib.rs `ranged`. -/
def pRanged : P Segment :=
  pMapExcept
    (pThenIgnore
      (pThen
        (pThenIgnore
          (pThen
            (pThenIgnore (pThen (pOneOf ['b', 'u', 'r', 'x']) (pOrNot pLabel)) (pJust '['))
            pInt)
          (pJust '-'))
        pInt)
      (pJust ']'))
    (fun x => Segment.new_ranged x.1.1.1 x.1.2 x.2)

/-- src/lib.rs `unbounded`. -/
def pUnbounded : P Segment :=
  pMapExcept (pThenIgnore (pThen (pOneOf ['b', 'u', 'r', 'x']) (pOrNot pLabel)) (pJust ':'))
    (fun x => (SegmentType.new x.1).map Segment.Unbounded)

/-- src/lib.rs `bounded`: a standalone fixed segment, or a ranged/unbounded
segment immediately followed by a fixed sequence; whitespace-padded. -/
def pBounded : P BoundedSegment :=
  pPadded
    (pOr
      (pMap (pOr pFixed pFixedSequence) BoundedSegment.Fixed)
      (pMap (pThen (pOr pRanged pUnbounded) pFixedSequence)
        (fun x => BoundedSegment.VariableLenToSequence x.1 x.2)))

/-- src/lib.rs `composite_read`. -/
def pCompositeRead : P SegmentComposite :=
  pOr
    (pMap (pThen (pAtLeast1 pBounded) (pOrNot (pOr pRanged pUnbounded)))
      (fun x => SegmentComposite.BoundedToMaybeRangedOrUnbounded x.1 x.2))
    (pMap (pOr pUnbounded pRanged) SegmentComposite.VariableLen)

/-- One top-level read description: `int` then `composite_read` in braces. -/
def pReadDescription : P ReadDescription :=
  pMap (pThen pInt (pDelimitedBy pCompositeRead (pJust '{') (pJust '}')))
    (fun x => ReadDescription.mk x.1 x.2)

/-- src/lib.rs `parser`: exactly two read descriptions, then end of input. -/
def parser : P (List ReadDescription) :=
  pThenIgnore (pExactly2 pReadDescription) pEnd

/-- Running the parser on a geometry string. -/
def parseGeom (s : String) : PResult (List ReadDescription) := parser s.toList

/-! Derived notions used to state the claims. -/

/-- Whether a segment is `Ranged` or `Unbounded` (a "variable" segment). -/
def Segment.isRangedOrUnbounded : Segment → Bool
  | .Ranged _ _ => true
  | .Unbounded _ => true
  | _ => false

/-- The segment shapes `process_fixed_segment_alone` accepts without
panicking: `FixedLength` carrying a `Num`, or `FixedSequence` carrying a
`Sequence`. -/
def Segment.fixedOk : Segment → Bool
  | .FixedLength _ (.Num _) => true
  | .FixedSequence _ (.Sequence _) => true
  | _ => false

/-- Whether a segment is a `FixedSequence` carrying `Sequence` data, the only
anchor shape `process_variable_then_fixed` accepts without panicking. -/
def Segment.seqOk : Segment → Bool
  | .FixedSequence _ (.Sequence _) => true
  | _ => false

/-- The bounded-segment shapes the parser can produce, which are exactly the
shapes the compiler handles without panicking. -/
def BoundedSegment.wf : BoundedSegment → Bool
  | .Fixed s => s.fixedOk
  | .VariableLenToSequence v f => f.seqOk && v.isRangedOrUnbounded

/-- The composite shapes the parser can produce. -/
def SegmentComposite.wf : SegmentComposite → Bool
  | .BoundedToMaybeRangedOrUnbounded bs vs =>
      bs.all BoundedSegment.wf &&
      (match vs with
       | some v => v.isRangedOrUnbounded
       | none => true)
  | .VariableLen v => v.isRangedOrUnbounded

/-- The read-description shapes the parser can produce. -/
def ReadDescription.wf (rd : ReadDescription) : Bool :=
  match rd.num with
  | .Num _ => rd.description.wf
  | _ => false

/-- All field labels dropped by `trim` operations of a pipeline, in order.
A field whose label appears here is removed from the output; a field never
trimmed is retained. -/
def trimmedLabels (ops : List Op) : List String :=
  (ops.filterMap fun op =>
    match op with
    | .trim ls => some ls
    | _ => none).flatten

/-- The alignment modes of the `match_any` operations of a pipeline, in order. -/
def matchTypesOf (ops : List Op) : List MatchType :=
  ops.filterMap fun op =>
    match op with
    | .match_any _ _ mt => some mt
    | _ => none

/-- The target lengths of the `pad` operations of a pipeline, in order. -/
def padTargets (ops : List Op) : List Nat :=
  ops.filterMap fun op =>
    match op with
    | .pad _ n => some n
    | _ => none

/-- The bounds of the `length_in_bounds` operations of a pipeline, in order. -/
def validateBounds (ops : List Op) : List Bound :=
  ops.filterMap fun op =>
    match op with
    | .length_in_bounds _ b => some b
    | _ => none

/-- The largest length accepted by a bound (its inclusive upper end). -/
def Bound.upperInclusive : Bound → Nat
  | .inclusiveRange _ hi => hi
  | .halfOpenRange _ hi => hi - 1

/-- The frontier label after `k` bounded segments of mate `n` have been
consumed: `seq{n}.` with `k` copies of `_r` appended. -/
def frontierLabel (n k : Nat) : String :=
  String.intercalate "_" (("seq" ++ toString n ++ ".") :: List.replicate k "r")

/-! Concrete fixture: the geometry string from the specification,
`"1{b[4]f[ATGC]x[0-10]}2{r:}"`, its parse, and the operation sequence the
compiler emits for mate 1. -/

/-- The example geometry string of the specification. -/
def exampleGeom : String := "1{b[4]f[ATGC]x[0-10]}2{r:}"

/-- The read description parsed for mate 1 of `exampleGeom`. -/
def exampleRead1 : ReadDescription :=
  { num := .Num 1,
    description := .BoundedToMaybeRangedOrUnbounded
      [.Fixed (.FixedLength .Barcode (.Num 4)),
       .Fixed (.FixedSequence .Sequence (.Sequence "ATGC"))]
      (some (.Ranged .Discard ⟨0, 10⟩)) }

/-- The read description parsed for mate 2 of `exampleGeom`. -/
def exampleRead2 : ReadDescription :=
  { num := .Num 2, description := .VariableLen (.Unbounded .Read) }

/-- The operation sequence `build_pipeline` emits for mate 1 of
`exampleGeom`.  Note the terminal discard segment `x[0-10]` contributes only
the final `trim` of the whole remaining frontier: no cut at 10 and no length
validation in `[0, 10]`. -/
def exampleOps1 : List Op :=
  [.cut "seq1.* -> seq1._l, seq1._r" (.LeftEnd 4),
   .length_in_bounds "seq1._l -> seq1._l.v_len" (.inclusiveRange 4 4),
   .retain "seq1._l.v_len",
   .match_any "seq1._r -> seq1._r_anchor, seq1._r_r"
     "\n    name: _anchor\n    patterns:\n        - pattern: \"ATGC\"\n"
     (.PrefixAln 1 1),
   .retain "seq1._r_anchor",
   .trim ["seq1._r_anchor"],
   .trim ["seq1._r_r"]]

end Seqproc

deriving instance DecidableEq for Except

namespace Seqproc

/-! Homomorphism lemmas for the pipeline projections. -/

theorem trimmedLabels_append (a b : List Op) :
    trimmedLabels (a ++ b) = trimmedLabels a ++ trimmedLabels b := by
  simp [trimmedLabels]

theorem matchTypesOf_append (a b : List Op) :
    matchTypesOf (a ++ b) = matchTypesOf a ++ matchTypesOf b := by
  simp [matchTypesOf]

theorem padTargets_append (a b : List Op) :
    padTargets (a ++ b) = padTargets a ++ padTargets b := by
  simp [padTargets]

theorem validateBounds_append (a b : List Op) :
    validateBounds (a ++ b) = validateBounds a ++ validateBounds b := by
  simp [validateBounds]

/-- C10: a syntactically well-formed geometry string whose decimal integer
literal exceeds `usize::MAX` (a 20-digit read index) is not reported as a
parse error: the integer sub-parser unwraps the string-to-usize conversion,
so parsing aborts with a panic instead of producing an error value. -/
theorem c10_overflow_panics :
    parseGeom "99999999999999999999{r:}2{r:}" =
      .panic "called Result::unwrap() on an Err value: ParseIntError" ∧
    parseGeom "99999999999999999999{r:}2{r:}" ≠ .fail := by
  exact ⟨by decide, by decide⟩

/-- C2 (counterexample): the claim asserts that a `Ranged` terminal segment
is cut and length-validated for every segment type including `Discard`, and
in particular that mate 1 of `"1{b[4]f[ATGC]x[0-10]}2{r:}"` compiles with a
validate-length-in-`[0,10]` operation on the discard region.  In fact the
compiled operation sequence for mate 1 contains no `length_in_bounds`
operation with bound `[0, 10]` (i.e. `0..11`) at all: the terminal discard
region is trimmed without being cut or validated. -/
theorem c2_counterexample :
    parseGeom exampleGeom = .ok [exampleRead1, exampleRead2] [] ∧
    ReadDescription.build_pipeline exampleRead1 [] = .ok exampleOps1 ∧
    (exampleOps1.all fun op =>
      match op with
      | .length_in_bounds _ (.halfOpenRange 0 11) => false
      | .length_in_bounds _ (.inclusiveRange 0 10) => false
      | _ => true) = true := by
  exact ⟨by decide, by decide, by decide⟩

/-- C2 (amended): for a `Ranged(type, [from, to])` segment compiled as the
terminal segment of a read, when `type` is not `Discard` the compiler cuts
the frontier at left-end index `to`, validates the cut part's length in
`[from, to]` (the half-open bound `from..to + 1`), pads the region to
`to + 1` and trims the unused tail beyond `to`; but when `type` is `Discard`
the whole remaining frontier is trimmed directly, with no cut and no length
validation. -/
theorem c2_amended (p : List Op) (l : String) (ty : SegmentType) (f t : Nat) :
    process_ending_variable_segment p (Segment.Ranged ty ⟨f, t⟩) l =
      .ok (if ty = SegmentType.Discard then p ++ [Op.trim [l]]
        else p ++
          [Op.cut ((if containsChar l '_' then l else l ++ "*") ++
              " -> " ++ l ++ "_l, " ++ l ++ "_r") (EndIdx.LeftEnd t),
           Op.length_in_bounds (l ++ "_l -> " ++ l ++ "_l.v_len")
             (Bound.halfOpenRange f (t + 1)),
           Op.retain (l ++ "_l.v_len"),
           Op.pad [make_label l "l"] (t + 1),
           Op.trim [make_label l "r"]]) := by
  cases ty <;>
    simp [process_ending_variable_segment, validate_sequence_length, validate_length,
      cut_sequence, cut, trim, pad, List.append_assoc]

/-- C3 (counterexample): the claim asserts every non-Discard segment —
in particular a `FixedSequence` anchor, whose type is always `Sequence` —
is retained in the output as a named field.  In fact the anchor field
`seq1._r_anchor` extracted for the `Sequence`-typed anchor `f[ATGC]` of
`exampleGeom`'s mate 1 is removed from the output by a `trim` operation. -/
theorem c3_counterexample :
    ReadDescription.build_pipeline exampleRead1 [] = .ok exampleOps1 ∧
    exampleOps1.contains (Op.trim ["seq1._r_anchor"]) = true ∧
    SegmentType.Sequence ≠ SegmentType.Discard := by
  exact ⟨by decide, by decide, by decide⟩

/-- C3 (amended): in every compiled operation sequence, a `Discard` segment
has its extracted region removed from the output (a `trim` operation on its
field) while a non-Discard segment's region is retained — except that every
`FixedSequence` anchor segment has its `_anchor` field trimmed from the
output unconditionally, even though its type (`Sequence`) is not `Discard`;
a non-Discard terminal `Ranged` segment additionally trims the unused tail
`_r` beyond its upper bound.  Stated per compilation rule via the labels of
the `trim` operations each rule appends. -/
theorem c3_amended :
    (∀ (p : List Op) (sl l : String) (ty : SegmentType) (n : Nat),
      (process_fixed_segment_alone p (.FixedLength ty (.Num n)) sl l).map trimmedLabels =
        .ok (trimmedLabels p ++ (if ty = SegmentType.Discard then [make_label l "l"] else []))) ∧
    (∀ (p : List Op) (sl l s : String) (ty : SegmentType),
      (process_fixed_segment_alone p (.FixedSequence ty (.Sequence s)) sl l).map trimmedLabels =
        .ok (trimmedLabels p ++ [l ++ "_anchor"])) ∧
    (∀ (p : List Op) (s sl l : String) (ty ty2 : SegmentType) (f t : Nat),
      (process_variable_then_fixed p (.FixedSequence ty (.Sequence s)) (.Ranged ty2 ⟨f, t⟩) sl l).map
          trimmedLabels =
        .ok (trimmedLabels p ++ [l ++ "_anchor"] ++
          (if ty2 = SegmentType.Discard then [make_label l "l"] else []))) ∧
    (∀ (p : List Op) (s sl l : String) (ty ty2 : SegmentType),
      (process_variable_then_fixed p (.FixedSequence ty (.Sequence s)) (.Unbounded ty2) sl l).map
          trimmedLabels =
        .ok (trimmedLabels p ++ [l ++ "_anchor"] ++
          (if ty2 = SegmentType.Discard then [make_label l "l"] else []))) ∧
    (∀ (p : List Op) (l : String) (ty : SegmentType) (f t : Nat),
      (process_ending_variable_segment p (.Ranged ty ⟨f, t⟩) l).map trimmedLabels =
        .ok (trimmedLabels p ++
          (if ty = SegmentType.Discard then [l] else [make_label l "r"]))) ∧
    (∀ (p : List Op) (l : String) (ty : SegmentType),
      (process_ending_variable_segment p (.Unbounded ty) l).map trimmedLabels =
        .ok (trimmedLabels p ++ (if ty = SegmentType.Discard then [l] else []))) := by
  refine ⟨?_, ?_, ?_, ?_, ?_, ?_⟩
  case _ => intro p sl l ty n; cases ty <;> simp [process_fixed_segment_alone, process_variable_then_fixed,
        process_ending_variable_segment, process_sequence, match_pattern,
        validate_sequence_length, validate_length, cut_sequence, cut, trim, pad,
        trimmedLabels_append, trimmedLabels, List.append_assoc, Except.map]
  case _ => intro p sl l s ty; simp [process_fixed_segment_alone, process_variable_then_fixed,
        process_ending_variable_segment, process_sequence, match_pattern,
        validate_sequence_length, validate_length, cut_sequence, cut, trim, pad,
        trimmedLabels_append, trimmedLabels, List.append_assoc, Except.map]
  case _ => intro p s sl l ty ty2 f t; cases ty2 <;> simp [process_fixed_segment_alone, process_variable_then_fixed,
        process_ending_variable_segment, process_sequence, match_pattern,
        validate_sequence_length, validate_length, cut_sequence, cut, trim, pad,
        trimmedLabels_append, trimmedLabels, List.append_assoc, Except.map]
  case _ => intro p s sl l ty ty2; cases ty2 <;> simp [process_fixed_segment_alone, process_variable_then_fixed,
        process_ending_variable_segment, process_sequence, match_pattern,
        validate_sequence_length, validate_length, cut_sequence, cut, trim, pad,
        trimmedLabels_append, trimmedLabels, List.append_assoc, Except.map]
  case _ => intro p l ty f t; cases ty <;> simp [process_fixed_segment_alone, process_variable_then_fixed,
        process_ending_variable_segment, process_sequence, match_pattern,
        validate_sequence_length, validate_length, cut_sequence, cut, trim, pad,
        trimmedLabels_append, trimmedLabels, List.append_assoc, Except.map]
  case _ => intro p l ty; cases ty <;> simp [process_fixed_segment_alone, process_variable_then_fixed,
        process_ending_variable_segment, process_sequence, match_pattern,
        validate_sequence_length, validate_length, cut_sequence, cut, trim, pad,
        trimmedLabels_append, trimmedLabels, List.append_assoc, Except.map]

/-- C4: for every non-Discard `Ranged(type, [from, to])` variable region, in
both the anchored case and the terminal case, the emitted pad operation's
target length is `to + 1`, exactly one more than the inclusive upper bound
`to` of the emitted length-validation bound `from..to + 1` (which accepts the
lengths in `[from, to]`). -/
theorem c4_pad_target :
    (∀ (p : List Op) (s sl l : String) (ty : SegmentType) (f t : Nat),
      (process_variable_then_fixed p (.FixedSequence .Sequence (.Sequence s)) (.Ranged ty ⟨f, t⟩) sl l).map
          (fun ops => (validateBounds ops, padTargets ops)) =
        .ok (validateBounds p ++ [Bound.halfOpenRange f (t + 1)],
          padTargets p ++
            (if ty = SegmentType.Discard then []
             else [(Bound.halfOpenRange f (t + 1)).upperInclusive + 1]))) ∧
    (∀ (p : List Op) (l : String) (ty : SegmentType) (f t : Nat),
      (process_ending_variable_segment p (.Ranged ty ⟨f, t⟩) l).map
          (fun ops => (validateBounds ops, padTargets ops)) =
        .ok (if ty = SegmentType.Discard then (validateBounds p, padTargets p)
          else (validateBounds p ++ [Bound.halfOpenRange f (t + 1)],
            padTargets p ++ [(Bound.halfOpenRange f (t + 1)).upperInclusive + 1]))) := by
  constructor <;>
    intros <;>
    rename_i ty _ _ <;>
    cases ty <;>
    simp [process_variable_then_fixed, process_ending_variable_segment, process_sequence,
      match_pattern, validate_sequence_length, validate_length, cut_sequence, cut, trim, pad,
      validateBounds_append, padTargets_append, validateBounds, padTargets,
      Bound.upperInclusive, List.append_assoc, Except.map]

/-! Locality of the compiler: every processing function only appends
operations to the pipeline it receives; it never inspects or rewrites them. -/

theorem process_fixed_segment_alone_append (p : List Op) (seg : Segment) (sl l : String) :
    process_fixed_segment_alone p seg sl l =
      (process_fixed_segment_alone [] seg sl l).map (p ++ ·) := by
  cases seg with
  | FixedLength ty d =>
      cases d <;> cases ty <;>
        simp [process_fixed_segment_alone, validate_sequence_length, validate_length,
          cut_sequence, cut, trim, Except.map, List.append_assoc]
  | FixedSequence ty d =>
      cases d <;>
        simp [process_fixed_segment_alone, process_sequence, match_pattern, trim,
          Except.map, List.append_assoc]
  | Ranged ty r => simp [process_fixed_segment_alone, Except.map]
  | Unbounded ty => simp [process_fixed_segment_alone, Except.map]

theorem process_variable_then_fixed_append (p : List Op) (f v : Segment) (sl l : String) :
    process_variable_then_fixed p f v sl l =
      (process_variable_then_fixed [] f v sl l).map (p ++ ·) := by
  cases f with
  | FixedSequence ty d =>
      cases d with
      | Sequence s =>
          cases v with
          | Ranged ty2 r =>
              cases ty2 <;>
                simp [process_variable_then_fixed, process_sequence, match_pattern,
                  validate_sequence_length, validate_length, trim, pad,
                  Except.map, List.append_assoc]
          | Unbounded ty2 =>
              cases ty2 <;>
                simp [process_variable_then_fixed, process_sequence, match_pattern,
                  validate_sequence_length, validate_length, trim, pad,
                  Except.map, List.append_assoc]
          | FixedLength ty2 d2 => simp [process_variable_then_fixed, Except.map]
          | FixedSequence ty2 d2 => simp [process_variable_then_fixed, Except.map]
      | Num n => simp [process_variable_then_fixed, Except.map]
      | Label s => simp [process_variable_then_fixed, Except.map]
  | FixedLength ty d => simp [process_variable_then_fixed, Except.map]
  | Ranged ty r => simp [process_variable_then_fixed, Except.map]
  | Unbounded ty => simp [process_variable_then_fixed, Except.map]

theorem process_ending_variable_segment_append (p : List Op) (seg : Segment) (l : String) :
    process_ending_variable_segment p seg l =
      (process_ending_variable_segment [] seg l).map (p ++ ·) := by
  cases seg with
  | Ranged ty r =>
      cases ty <;>
        simp [process_ending_variable_segment, validate_sequence_length, validate_length,
          cut_sequence, cut, trim, pad, Except.map, List.append_assoc]
  | Unbounded ty =>
      cases ty <;> simp [process_ending_variable_segment, trim, Except.map]
  | FixedLength ty d => simp [process_ending_variable_segment, Except.map]
  | FixedSequence ty d => simp [process_ending_variable_segment, Except.map]

theorem process_bounded_segment_append (p : List Op) (b : BoundedSegment) (l : String) :
    process_bounded_segment p b l = (process_bounded_segment [] b l).map (p ++ ·) := by
  cases b with
  | Fixed f =>
      simp only [process_bounded_segment]
      exact process_fixed_segment_alone_append ..
  | VariableLenToSequence v f =>
      simp only [process_bounded_segment]
      exact process_variable_then_fixed_append ..

theorem buildBoundedLoop_append (bs : List BoundedSegment) :
    ∀ (p : List Op) (ls : List String),
      buildBoundedLoop p ls bs =
        (buildBoundedLoop [] ls bs).map (fun x => (p ++ x.1, x.2)) := by
  induction bs with
  | nil => intro p ls; simp [buildBoundedLoop, Except.map]
  | cons b rest ih =>
      intro p ls
      simp only [buildBoundedLoop]
      rw [process_bounded_segment_append p b, process_bounded_segment_append [] b]
      cases h : process_bounded_segment [] b (String.intercalate "_" ls) with
      | error e => simp [Except.map]
      | ok q =>
          simp only [Except.map, List.nil_append]
          rw [ih (p ++ q), ih q]
          cases buildBoundedLoop [] (ls ++ ["r"]) rest <;>
            simp [Except.map, List.append_assoc]

/-- The label vector after the bounded-segment loop: the initial labels with
one `"r"` pushed per processed segment. -/
theorem buildBoundedLoop_labels (bs : List BoundedSegment) :
    ∀ (p : List Op) (ls : List String) (q : List Op) (ls' : List String),
      buildBoundedLoop p ls bs = .ok (q, ls') →
        ls' = ls ++ List.replicate bs.length "r" := by
  induction bs with
  | nil =>
      intro p ls q ls' h
      simp [buildBoundedLoop] at h
      simp [h.2.symm]
  | cons b rest ih =>
      intro p ls q ls' h
      simp only [buildBoundedLoop] at h
      cases hpb : process_bounded_segment p b (String.intercalate "_" ls) with
      | error e => rw [hpb] at h; exact absurd h (by simp)
      | ok q0 =>
          rw [hpb] at h
          have := ih q0 (ls ++ ["r"]) q ls' h
          rw [this]
          simp [List.replicate_succ, List.append_assoc]

/-! `isOk` characterizations: the compiler succeeds exactly on the segment
shapes the parser can produce and panics on every other shape. -/

theorem process_fixed_segment_alone_isOk (p : List Op) (seg : Segment) (sl l : String) :
    (process_fixed_segment_alone p seg sl l).isOk = seg.fixedOk := by
  cases seg with
  | FixedLength ty d =>
      cases d <;> cases ty <;>
        simp [process_fixed_segment_alone, Segment.fixedOk, Except.isOk, Except.toBool, Except.toBool]
  | FixedSequence ty d =>
      cases d <;> simp [process_fixed_segment_alone, Segment.fixedOk, Except.isOk, Except.toBool, Except.toBool]
  | Ranged ty r => simp [process_fixed_segment_alone, Segment.fixedOk, Except.isOk, Except.toBool, Except.toBool]
  | Unbounded ty => simp [process_fixed_segment_alone, Segment.fixedOk, Except.isOk, Except.toBool, Except.toBool]

theorem process_variable_then_fixed_isOk (p : List Op) (f v : Segment) (sl l : String) :
    (process_variable_then_fixed p f v sl l).isOk =
      (f.seqOk && v.isRangedOrUnbounded) := by
  cases f with
  | FixedSequence ty d =>
      cases d with
      | Sequence s =>
          cases v with
          | Ranged ty2 r =>
              cases ty2 <;>
                simp [process_variable_then_fixed, Segment.seqOk,
                  Segment.isRangedOrUnbounded, Except.isOk, Except.toBool, Except.toBool]
          | Unbounded ty2 =>
              cases ty2 <;>
                simp [process_variable_then_fixed, Segment.seqOk,
                  Segment.isRangedOrUnbounded, Except.isOk, Except.toBool, Except.toBool]
          | FixedLength ty2 d2 =>
              simp [process_variable_then_fixed, Segment.seqOk,
                Segment.isRangedOrUnbounded, Except.isOk, Except.toBool, Except.toBool]
          | FixedSequence ty2 d2 =>
              simp [process_variable_then_fixed, Segment.seqOk,
                Segment.isRangedOrUnbounded, Except.isOk, Except.toBool, Except.toBool]
      | Num n =>
          simp [process_variable_then_fixed, Segment.seqOk, Except.isOk, Except.toBool, Except.toBool]
      | Label s =>
          simp [process_variable_then_fixed, Segment.seqOk, Except.isOk, Except.toBool, Except.toBool]
  | FixedLength ty d => simp [process_variable_then_fixed, Segment.seqOk, Except.isOk, Except.toBool, Except.toBool]
  | Ranged ty r => simp [process_variable_then_fixed, Segment.seqOk, Except.isOk, Except.toBool, Except.toBool]
  | Unbounded ty => simp [process_variable_then_fixed, Segment.seqOk, Except.isOk, Except.toBool, Except.toBool]

theorem process_ending_variable_segment_isOk (p : List Op) (seg : Segment) (l : String) :
    (process_ending_variable_segment p seg l).isOk = seg.isRangedOrUnbounded := by
  cases seg with
  | Ranged ty r =>
      cases ty <;>
        simp [process_ending_variable_segment, Segment.isRangedOrUnbounded, Except.isOk, Except.toBool, Except.toBool]
  | Unbounded ty =>
      cases ty <;>
        simp [process_ending_variable_segment, Segment.isRangedOrUnbounded, Except.isOk, Except.toBool, Except.toBool]
  | FixedLength ty d =>
      simp [process_ending_variable_segment, Segment.isRangedOrUnbounded, Except.isOk, Except.toBool, Except.toBool]
  | FixedSequence ty d =>
      simp [process_ending_variable_segment, Segment.isRangedOrUnbounded, Except.isOk, Except.toBool, Except.toBool]

theorem process_bounded_segment_isOk (p : List Op) (b : BoundedSegment) (l : String) :
    (process_bounded_segment p b l).isOk = b.wf := by
  cases b with
  | Fixed f =>
      simp only [process_bounded_segment, BoundedSegment.wf]
      exact process_fixed_segment_alone_isOk ..
  | VariableLenToSequence v f =>
      simp only [process_bounded_segment, BoundedSegment.wf]
      exact process_variable_then_fixed_isOk ..

theorem buildBoundedLoop_isOk (bs : List BoundedSegment) :
    ∀ (p : List Op) (ls : List String),
      (buildBoundedLoop p ls bs).isOk = bs.all BoundedSegment.wf := by
  induction bs with
  | nil => intro p ls; simp [buildBoundedLoop, Except.isOk, Except.toBool, Except.toBool]
  | cons b rest ih =>
      intro p ls
      simp only [buildBoundedLoop]
      cases hpb : process_bounded_segment p b (String.intercalate "_" ls) with
      | error e =>
          have hwf := process_bounded_segment_isOk p b (String.intercalate "_" ls)
          rw [hpb] at hwf
          simp [Except.isOk, Except.toBool, Except.toBool] at hwf
          simp [Except.isOk, Except.toBool, List.all_cons, ← hwf]
      | ok q =>
          have hwf := process_bounded_segment_isOk p b (String.intercalate "_" ls)
          rw [hpb] at hwf
          simp [Except.isOk, Except.toBool, Except.toBool] at hwf
          simp [List.all_cons, ← hwf, ih q (ls ++ ["r"])]

/-- C9: compilation is deterministic and stateless.  `build_pipeline` is a
pure function of the AST that only appends a fixed operation sequence to
whatever pipeline it is given: the result of compiling onto any initial
pipeline equals the initial pipeline followed by the operations obtained by
compiling onto an empty pipeline.  In particular compiling two structurally
equal copies of the same AST, each with a fresh initial pipeline, yields
structurally identical operation sequences, and no state is carried over
between segments or compilations. -/
theorem c9_stateless (rd : ReadDescription) (init : List Op) :
    ReadDescription.build_pipeline rd init =
      (ReadDescription.build_pipeline rd []).map (fun ops => init ++ ops) := by
  obtain ⟨num, desc⟩ := rd
  cases num with
  | Num n =>
      cases desc with
      | BoundedToMaybeRangedOrUnbounded bs vs =>
          simp only [ReadDescription.build_pipeline]
          rw [buildBoundedLoop_append bs init]
          cases h : buildBoundedLoop [] ["seq" ++ toString n ++ "."] bs with
          | error e => simp [Except.map]
          | ok x =>
              obtain ⟨q, ls'⟩ := x
              simp only [Except.map]
              cases vs with
              | none => simp [trim, List.append_assoc]
              | some seg =>
                  dsimp only
                  rw [process_ending_variable_segment_append (init ++ q),
                    process_ending_variable_segment_append q]
                  cases process_ending_variable_segment [] seg (String.intercalate "_" ls') <;>
                    simp [Except.map, List.append_assoc]
      | VariableLen seg =>
          simp only [ReadDescription.build_pipeline]
          exact process_ending_variable_segment_append ..
  | Label s => simp [ReadDescription.build_pipeline, Except.map]
  | Sequence s => simp [ReadDescription.build_pipeline, Except.map]

/-- C8: when a `BoundedToMaybeRangedOrUnbounded` composite has no trailing
variable segment, the compiled operation sequence ends with a `trim` of the
remaining frontier field (the label built from the mate number and one `_r`
per bounded segment), so the leftover frontier is discarded rather than
passed through unclassified. -/
theorem c8_trailing_trim (n : Nat) (bs : List BoundedSegment) (init ops : List Op)
    (h : ReadDescription.build_pipeline
      ⟨.Num n, .BoundedToMaybeRangedOrUnbounded bs none⟩ init = .ok ops) :
    ∃ pre, ops = pre ++ [Op.trim [frontierLabel n bs.length]] := by
  simp only [ReadDescription.build_pipeline] at h
  cases hl : buildBoundedLoop init ["seq" ++ toString n ++ "."] bs with
  | error e => rw [hl] at h; exact absurd h (by simp)
  | ok x =>
      obtain ⟨q, ls'⟩ := x
      rw [hl] at h
      have hls := buildBoundedLoop_labels bs init _ q ls' hl
      refine ⟨q, ?_⟩
      have h2 : trim q [String.intercalate "_" ls'] = ops := by
        injection h
      rw [← h2, hls, trim, frontierLabel]
      rfl

/-- Witness for C8 at the concrete read description `1{b[4]}` (no trailing
segment): the compiled sequence ends with a trim of the frontier
`seq1._r`. -/
theorem c8_trailing_trim_witness :
    ∃ pre,
      [Op.cut "seq1.* -> seq1._l, seq1._r" (.LeftEnd 4),
       Op.length_in_bounds "seq1._l -> seq1._l.v_len" (.inclusiveRange 4 4),
       Op.retain "seq1._l.v_len",
       Op.trim ["seq1._r"]] = pre ++ [Op.trim [frontierLabel 1 1]] :=
  c8_trailing_trim 1 [.Fixed (.FixedLength .Barcode (.Num 4))] []
    [Op.cut "seq1.* -> seq1._l, seq1._r" (.LeftEnd 4),
     Op.length_in_bounds "seq1._l -> seq1._l.v_len" (.inclusiveRange 4 4),
     Op.retain "seq1._l.v_len",
     Op.trim ["seq1._r"]] (by decide)

/-- C5: a `FixedSequence` segment compiled standalone emits a match-anchor
operation using prefix alignment with identity = 1 and overlap = 1; a
`FixedSequence` segment compiled as the anchor terminating a variable-length
region emits a match-anchor operation using local alignment with the same
identity = 1 and overlap = 1 thresholds. -/
theorem c5_alignment_modes :
    (∀ (p : List Op) (s sl l : String) (ty : SegmentType),
      (process_fixed_segment_alone p (.FixedSequence ty (.Sequence s)) sl l).map matchTypesOf =
        .ok (matchTypesOf p ++ [MatchType.PrefixAln 1 1])) ∧
    (∀ (p : List Op) (s sl l : String) (ty ty2 : SegmentType) (f t : Nat),
      (process_variable_then_fixed p (.FixedSequence ty (.Sequence s)) (.Ranged ty2 ⟨f, t⟩) sl l).map
          matchTypesOf =
        .ok (matchTypesOf p ++ [MatchType.LocalAln 1 1])) ∧
    (∀ (p : List Op) (s sl l : String) (ty ty2 : SegmentType),
      (process_variable_then_fixed p (.FixedSequence ty (.Sequence s)) (.Unbounded ty2) sl l).map
          matchTypesOf =
        .ok (matchTypesOf p ++ [MatchType.LocalAln 1 1])) := by
  refine ⟨?_, ?_, ?_⟩
  case _ => intro p s sl l ty
            simp [process_fixed_segment_alone, process_sequence, match_pattern, trim,
              matchTypesOf_append, matchTypesOf, List.append_assoc, Except.map]
  case _ => intro p s sl l ty ty2 f t
            cases ty2 <;>
              simp [process_variable_then_fixed, process_sequence, match_pattern,
                validate_sequence_length, validate_length, trim, pad,
                matchTypesOf_append, matchTypesOf, List.append_assoc, Except.map]
  case _ => intro p s sl l ty ty2
            cases ty2 <;>
              simp [process_variable_then_fixed, process_sequence, match_pattern,
                validate_sequence_length, validate_length, trim, pad,
                matchTypesOf_append, matchTypesOf, List.append_assoc, Except.map]


/-! Inversion lemmas for the parser combinators: what a successful parse
implies about the sub-parsers. -/

theorem exceptMap_ok {α β : Type} {e : Except String α} {f : α → β} {b : β}
    (h : e.map f = .ok b) : ∃ a, e = .ok a ∧ f a = b := by
  cases e with
  | ok a => exact ⟨a, rfl, by injection h⟩
  | error m => exact absurd h (by simp [Except.map])

theorem pMap_ok {α β : Type} {p : P α} {f : α → β} {s : List Char} {b : β}
    {r : List Char} (h : pMap p f s = .ok b r) : ∃ a, p s = .ok a r ∧ f a = b := by
  unfold pMap at h
  split at h
  · next a rest hp => injection h with h1 h2; subst h2; exact ⟨a, hp, h1⟩
  · exact absurd h (by simp)
  · exact absurd h (by simp)

theorem pMapExcept_ok {α β : Type} {p : P α} {f : α → Except String β}
    {s : List Char} {b : β} {r : List Char} (h : pMapExcept p f s = .ok b r) :
    ∃ a, p s = .ok a r ∧ f a = .ok b := by
  unfold pMapExcept at h
  split at h
  · next a rest hp =>
      split at h
      · next b0 hf => injection h with h1 h2; subst h2; subst h1; exact ⟨a, hp, hf⟩
      · exact absurd h (by simp)
  · exact absurd h (by simp)
  · exact absurd h (by simp)

theorem pThen_ok {α β : Type} {p : P α} {q : P β} {s : List Char} {x : α × β}
    {r : List Char} (h : pThen p q s = .ok x r) :
    ∃ a b mid, p s = .ok a mid ∧ q mid = .ok b r ∧ x = (a, b) := by
  unfold pThen at h
  split at h
  · next a mid hp =>
      split at h
      · next b s2 hq => injection h with h1 h2; subst h2; exact ⟨a, b, mid, hp, hq, h1.symm⟩
      · exact absurd h (by simp)
      · exact absurd h (by simp)
  · exact absurd h (by simp)
  · exact absurd h (by simp)

theorem pThenIgnore_ok {α β : Type} {p : P α} {q : P β} {s : List Char} {a : α}
    {r : List Char} (h : pThenIgnore p q s = .ok a r) :
    ∃ mid b, p s = .ok a mid ∧ q mid = .ok b r := by
  obtain ⟨x, hx, hfx⟩ := pMap_ok h
  obtain ⟨a0, b0, mid, hp, hq, hxv⟩ := pThen_ok hx
  subst hxv
  cases hfx
  exact ⟨mid, b0, hp, hq⟩

theorem pIgnoreThen_ok {α β : Type} {p : P α} {q : P β} {s : List Char} {b : β}
    {r : List Char} (h : pIgnoreThen p q s = .ok b r) :
    ∃ mid a, p s = .ok a mid ∧ q mid = .ok b r := by
  obtain ⟨x, hx, hfx⟩ := pMap_ok h
  obtain ⟨a0, b0, mid, hp, hq, hxv⟩ := pThen_ok hx
  subst hxv
  cases hfx
  exact ⟨mid, a0, hp, hq⟩

theorem pOr_ok {α : Type} {p q : P α} {s : List Char} {a : α} {r : List Char}
    (h : pOr p q s = .ok a r) : p s = .ok a r ∨ q s = .ok a r := by
  unfold pOr at h
  split at h
  · next a0 r0 hp => exact Or.inl (h ▸ hp)
  · exact absurd h (by simp)
  · exact Or.inr h

theorem pOrNot_ok {α : Type} {p : P α} {s : List Char} {o : Option α}
    {r : List Char} (h : pOrNot p s = .ok o r) :
    (∃ a, o = some a ∧ p s = .ok a r) ∨ (o = none ∧ r = s) := by
  unfold pOrNot at h
  split at h
  · next a0 r0 hp => injection h with h1 h2; subst h2; exact Or.inl ⟨a0, h1.symm, hp⟩
  · exact absurd h (by simp)
  · injection h with h1 h2; subst h2; exact Or.inr ⟨h1.symm, rfl⟩

theorem pPadded_ok {α : Type} {p : P α} {s : List Char} {a : α} {r : List Char}
    (h : pPadded p s = .ok a r) : ∃ r0, p (skipWhitespace s) = .ok a r0 := by
  unfold pPadded at h
  split at h
  · next a0 r0 hp => injection h with h1 h2; subst h1; exact ⟨r0, hp⟩
  · exact absurd h (by simp)
  · exact absurd h (by simp)

theorem pDelimitedBy_ok {α β γ : Type} {p : P α} {l : P β} {rp : P γ}
    {s : List Char} {a : α} {r : List Char} (h : pDelimitedBy p l rp s = .ok a r) :
    ∃ (mid1 mid2 : List Char) (x : β) (y : γ),
      l s = .ok x mid1 ∧ p mid1 = .ok a mid2 ∧ rp mid2 = .ok y r := by
  obtain ⟨mid2, y, hin, hr⟩ := pThenIgnore_ok h
  obtain ⟨mid1, x, hl, hp⟩ := pIgnoreThen_ok hin
  exact ⟨mid1, mid2, x, y, hl, hp, hr⟩

theorem pRepeatedFuel_mem {α : Type} {p : P α} :
    ∀ (fuel : Nat) (s : List Char) (vs : List α) (r : List Char),
      pRepeatedFuel p fuel s = .ok vs r →
        ∀ v ∈ vs, ∃ s1 r1, p s1 = .ok v r1 := by
  intro fuel
  induction fuel with
  | zero =>
      intro s vs r h v hv
      simp [pRepeatedFuel] at h
      rw [h.1] at hv
      simp at hv
  | succ n ih =>
      intro s vs r h v hv
      simp only [pRepeatedFuel] at h
      split at h
      · next a s1 hp =>
          split at h
          · next as s2 hrec =>
              injection h with h1 h2
              rw [← h1] at hv
              rcases List.mem_cons.mp hv with hva | hvm
              · exact ⟨s, s1, hva ▸ hp⟩
              · exact ih s1 as s2 hrec v hvm
          · exact absurd h (by simp)
          · exact absurd h (by simp)
      · next hp =>
          injection h with h1 h2
          rw [← h1] at hv
          simp at hv
      · exact absurd h (by simp)

theorem pRepeated_mem {α : Type} {p : P α} {s : List Char} {vs : List α}
    {r : List Char} (h : pRepeated p s = .ok vs r) :
    ∀ v ∈ vs, ∃ s1 r1, p s1 = .ok v r1 :=
  pRepeatedFuel_mem (s.length + 1) s vs r h

theorem pAtLeast1_mem {α : Type} {p : P α} {s : List Char} {vs : List α}
    {r : List Char} (h : pAtLeast1 p s = .ok vs r) :
    ∀ v ∈ vs, ∃ s1 r1, p s1 = .ok v r1 := by
  unfold pAtLeast1 at h
  split at h
  · next as r0 hrep =>
      split at h
      · injection h with h1 h2
        exact h1 ▸ pRepeated_mem hrep
      · exact absurd h (by simp)
  · exact absurd h (by simp)
  · exact absurd h (by simp)

theorem pExactly2_ok {α : Type} {p : P α} {s : List Char} {vs : List α}
    {r : List Char} (h : pExactly2 p s = .ok vs r) :
    ∃ a b mid, p s = .ok a mid ∧ p mid = .ok b r ∧ vs = [a, b] := by
  unfold pExactly2 at h
  split at h
  · next a mid hp =>
      split at h
      · next b s2 hq => injection h with h1 h2; subst h2; exact ⟨a, b, mid, hp, hq, h1.symm⟩
      · exact absurd h (by simp)
      · exact absurd h (by simp)
  · exact absurd h (by simp)
  · exact absurd h (by simp)

/-! Shape soundness: every value a grammar production can return has the
form the compiler expects. -/

theorem pInt_shape {s : List Char} {d : SegmentData} {r : List Char}
    (h : pInt s = .ok d r) : ∃ n, d = .Num n := by
  obtain ⟨ds, _, hf⟩ := pMapExcept_ok h
  by_cases hle : digitsToNat ds ≤ USIZE_MAX
  · simp [hle] at hf
    exact ⟨digitsToNat ds, hf.symm⟩
  · simp [hle] at hf

theorem pNucleotideSequence_shape {s : List Char} {d : SegmentData} {r : List Char}
    (h : pNucleotideSequence s = .ok d r) : ∃ str, d = .Sequence str := by
  unfold pNucleotideSequence at h
  injection h with h1 h2
  exact ⟨_, h1.symm⟩

theorem new_ranged_shape {c : Char} {f t : SegmentData} {seg : Segment}
    (h : Segment.new_ranged c f t = .ok seg) : seg.isRangedOrUnbounded = true := by
  unfold Segment.new_ranged at h
  split at h
  · obtain ⟨st, _, hfa⟩ := exceptMap_ok h
    rw [← hfa]
    rfl
  · exact absurd h (by simp)

theorem pFixed_shape {s : List Char} {seg : Segment} {r : List Char}
    (h : pFixed s = .ok seg r) : seg.fixedOk = true := by
  obtain ⟨x, hx, hf⟩ := pMapExcept_ok h
  obtain ⟨mid, cb, hA, hbr⟩ := pThenIgnore_ok hx
  obtain ⟨y, d, mid2, hy, hd, hxv⟩ := pThen_ok hA
  obtain ⟨n, hn⟩ := pInt_shape hd
  subst hxv
  subst hn
  obtain ⟨st, hst, hfa⟩ := exceptMap_ok hf
  rw [← hfa]
  rfl

theorem pFixedSequence_shape {s : List Char} {seg : Segment} {r : List Char}
    (h : pFixedSequence s = .ok seg r) :
    seg.fixedOk = true ∧ seg.seqOk = true := by
  obtain ⟨x, hx, hf⟩ := pMap_ok h
  obtain ⟨y, d, mid, hy, hd, hxv⟩ := pThen_ok hx
  obtain ⟨mid1, mid2, _, _, _, hnuc, _⟩ := pDelimitedBy_ok hd
  obtain ⟨str, hstr⟩ := pNucleotideSequence_shape hnuc
  rw [← hf, hxv, hstr]
  exact ⟨rfl, rfl⟩

theorem pRanged_shape {s : List Char} {seg : Segment} {r : List Char}
    (h : pRanged s = .ok seg r) : seg.isRangedOrUnbounded = true := by
  obtain ⟨x, hx, hf⟩ := pMapExcept_ok h
  exact new_ranged_shape hf

theorem pUnbounded_shape {s : List Char} {seg : Segment} {r : List Char}
    (h : pUnbounded s = .ok seg r) : seg.isRangedOrUnbounded = true := by
  obtain ⟨x, hx, hf⟩ := pMapExcept_ok h
  obtain ⟨st, _, hfa⟩ := exceptMap_ok hf
  rw [← hfa]
  rfl

theorem pBounded_wf {s : List Char} {b : BoundedSegment} {r : List Char}
    (h : pBounded s = .ok b r) : b.wf = true := by
  obtain ⟨r0, hor⟩ := pPadded_ok h
  rcases pOr_ok hor with h1 | h2
  · obtain ⟨seg, hseg, hb⟩ := pMap_ok h1
    rcases pOr_ok hseg with hf | hfs
    · rw [← hb]
      exact pFixed_shape hf
    · rw [← hb]
      exact (pFixedSequence_shape hfs).1
  · obtain ⟨x, hx, hb⟩ := pMap_ok h2
    obtain ⟨v, f, mid, hv, hf, hxv⟩ := pThen_ok hx
    rw [← hb, hxv]
    have hvru : v.isRangedOrUnbounded = true := by
      rcases pOr_ok hv with hr | hu
      · exact pRanged_shape hr
      · exact pUnbounded_shape hu
    have hfs := (pFixedSequence_shape hf).2
    simp [BoundedSegment.wf, hvru, hfs]

theorem pCompositeRead_wf {s : List Char} {c : SegmentComposite} {r : List Char}
    (h : pCompositeRead s = .ok c r) : c.wf = true := by
  rcases pOr_ok h with h1 | h2
  · obtain ⟨x, hx, hc⟩ := pMap_ok h1
    obtain ⟨bs, vo, mid, hbs, hvo, hxv⟩ := pThen_ok hx
    rw [← hc, hxv]
    have hall : bs.all BoundedSegment.wf = true := by
      rw [List.all_eq_true]
      intro b hb
      obtain ⟨s1, r1, hb1⟩ := pAtLeast1_mem hbs b hb
      exact pBounded_wf hb1
    rcases pOrNot_ok hvo with ⟨v, hv, hpv⟩ | ⟨hv, _⟩
    · have hvru : v.isRangedOrUnbounded = true := by
        rcases pOr_ok hpv with hr | hu
        · exact pRanged_shape hr
        · exact pUnbounded_shape hu
      rw [hv]
      simp [SegmentComposite.wf, hall, hvru]
    · rw [hv]
      simp [SegmentComposite.wf, hall]
  · obtain ⟨v, hv, hc⟩ := pMap_ok h2
    rw [← hc]
    have hvru : v.isRangedOrUnbounded = true := by
      rcases pOr_ok hv with hu | hr
      · exact pUnbounded_shape hu
      · exact pRanged_shape hr
    simp [SegmentComposite.wf, hvru]

theorem pReadDescription_wf {s : List Char} {rd : ReadDescription} {r : List Char}
    (h : pReadDescription s = .ok rd r) : rd.wf = true := by
  obtain ⟨x, hx, hrd⟩ := pMap_ok h
  obtain ⟨d, c, mid, hd, hc, hxv⟩ := pThen_ok hx
  obtain ⟨n, hn⟩ := pInt_shape hd
  obtain ⟨mid1, mid2, _, _, _, hcr, _⟩ := pDelimitedBy_ok hc
  have hcwf := pCompositeRead_wf hcr
  rw [← hrd, hxv, hn]
  simpa [ReadDescription.wf] using hcwf


/-- Inversion for `pEnd`: success means the input was empty. -/
theorem pEnd_ok {s : List Char} {u : Unit} {r : List Char}
    (h : pEnd s = .ok u r) : s = [] ∧ r = [] := by
  unfold pEnd at h
  cases s with
  | nil => exact ⟨rfl, by injection h with h1 h2; exact h2.symm⟩
  | cons c cs => exact absurd h (by simp)

/-- C7: for every AST the parser can produce (characterized by the decidable
well-formedness predicate `ReadDescription.wf`: the read number a `Num`,
every `Fixed` bounded segment a `FixedLength`-with-`Num` or a
`FixedSequence`-with-`Sequence`, every `VariableLenToSequence` pairing a
`Ranged`/`Unbounded` with a `FixedSequence`, every trailing or standalone
variable segment `Ranged` or `Unbounded`), compilation completes without
aborting, and on every AST shape outside these forms the compiler aborts
with a diagnostic naming the offending node (modelled as `Except.error`):
`build_pipeline` succeeds exactly on well-formed read descriptions, and
every read description a successful parse returns is well-formed. -/
theorem c7_panic_free_iff_wf :
    (∀ (rd : ReadDescription) (init : List Op),
      (ReadDescription.build_pipeline rd init).isOk = rd.wf) ∧
    (∀ (s : String) (v : List ReadDescription) (rest : List Char),
      parseGeom s = .ok v rest → ∀ rd ∈ v, rd.wf = true) := by
  constructor
  · intro rd init
    obtain ⟨num, desc⟩ := rd
    cases num with
    | Num n =>
        cases desc with
        | BoundedToMaybeRangedOrUnbounded bs vs =>
            simp only [ReadDescription.build_pipeline, ReadDescription.wf,
              SegmentComposite.wf]
            have hloop := buildBoundedLoop_isOk bs init ["seq" ++ toString n ++ "."]
            cases hl : buildBoundedLoop init ["seq" ++ toString n ++ "."] bs with
            | error e =>
                rw [hl] at hloop
                simp only [Except.isOk, Except.toBool] at hloop
                simp [Except.isOk, Except.toBool, ← hloop]
            | ok x =>
                obtain ⟨q, ls'⟩ := x
                rw [hl] at hloop
                simp only [Except.isOk, Except.toBool] at hloop
                cases vs with
                | none => simp [Except.isOk, Except.toBool, ← hloop]
                | some seg =>
                    dsimp only
                    rw [process_ending_variable_segment_isOk]
                    rw [← hloop]
                    simp
        | VariableLen seg =>
            simp only [ReadDescription.build_pipeline, ReadDescription.wf,
              SegmentComposite.wf]
            exact process_ending_variable_segment_isOk ..
    | Label s =>
        simp [ReadDescription.build_pipeline, ReadDescription.wf,
          Except.isOk, Except.toBool]
    | Sequence s =>
        simp [ReadDescription.build_pipeline, ReadDescription.wf,
          Except.isOk, Except.toBool]
  · intro s v rest h rd hrd
    unfold parseGeom parser at h
    obtain ⟨mid, u, h1, h2⟩ := pThenIgnore_ok h
    obtain ⟨a, b, mid2, ha, hb, hv⟩ := pExactly2_ok h1
    subst hv
    rcases List.mem_cons.mp hrd with hh | hh
    · exact hh ▸ pReadDescription_wf ha
    · have : rd = b := by simpa using hh
      exact this ▸ pReadDescription_wf hb

/-- Witness for C7: the read description parsed for mate 1 of the example
geometry string is well-formed. -/
theorem c7_witness : exampleRead1.wf = true :=
  c7_panic_free_iff_wf.2 exampleGeom [exampleRead1, exampleRead2] [] (by decide)
    exampleRead1 (by simp)

/-- C1: the top-level parser succeeds exactly when the input consists of two
consecutive read descriptions followed by end-of-input, and then it yields
exactly those two `ReadDescription` values with no input remaining; any
leftover input after the second block, or fewer than two parseable blocks,
is a parse failure. -/
theorem c1_exactly_two_reads (s : String) (v : List ReadDescription) (rest : List Char) :
    parseGeom s = .ok v rest ↔
      (v.length = 2 ∧ rest = [] ∧
        ∃ r1 r2 mid, pReadDescription s.toList = .ok r1 mid ∧
          pReadDescription mid = .ok r2 [] ∧ v = [r1, r2]) := by
  constructor
  · intro h
    unfold parseGeom parser at h
    obtain ⟨mid, u, h1, h2⟩ := pThenIgnore_ok h
    obtain ⟨hmid, hrest⟩ := pEnd_ok h2
    subst hmid
    obtain ⟨a, b, mid2, ha, hb, hv⟩ := pExactly2_ok h1
    exact ⟨by rw [hv]; rfl, hrest, a, b, mid2, ha, hb, hv⟩
  · rintro ⟨hlen, hrest, r1, r2, mid, h1, h2, hv⟩
    subst hv
    subst hrest
    have h1d : pReadDescription s.data = PResult.ok r1 mid := h1
    simp [parseGeom, parser, pThenIgnore, pThen, pMap, pExactly2, pEnd, h1d, h2]


/-- If a list contains an element failing `P`, `dropWhile P` leaves a
nonempty suffix starting with such an element. -/
theorem dropWhile_first_false (P : Char → Bool) :
    ∀ (l : List Char), (∃ c ∈ l, P c = false) →
      ∃ c0 rest, l.dropWhile P = c0 :: rest ∧ c0 ∈ l ∧ P c0 = false := by
  intro l
  induction l with
  | nil => rintro ⟨c, hc, _⟩; simp at hc
  | cons a t ih =>
      rintro ⟨c, hc, hPc⟩
      cases hPa : P a with
      | true =>
          have hct : c ∈ t := by
            rcases List.mem_cons.mp hc with h | h
            · rw [h, hPa] at hPc; cases hPc
            · exact h
          obtain ⟨c0, rest, hd, hm, hp⟩ := ih ⟨c, hct, hPc⟩
          exact ⟨c0, rest, by simp [List.dropWhile_cons, hPa, hd],
            List.mem_cons_of_mem _ hm, hp⟩
      | false =>
          exact ⟨a, t, by simp [List.dropWhile_cons, hPa], List.mem_cons_self .., hPa⟩

/-- `dropWhile` distributes over an append whose left part is not wholly
consumed. -/
theorem dropWhile_append_of_ne_nil (P : Char → Bool) :
    ∀ (l t : List Char), l.dropWhile P ≠ [] →
      (l ++ t).dropWhile P = l.dropWhile P ++ t := by
  intro l
  induction l with
  | nil => intro t h; exact absurd rfl h
  | cons a l ih =>
      intro t h
      cases hPa : P a with
      | true =>
          rw [List.dropWhile_cons, hPa] at h
          simp only [List.cons_append, List.dropWhile_cons, hPa]
          exact ih t (by simpa using h)
      | false => simp [List.cons_append, List.dropWhile_cons, hPa]

/-- C6: `"b[8]"` parses (as a bounded segment) to
`Fixed (FixedLength Barcode 8)` and, the parser being a function, to nothing
else; `"f[ATGC]"` parses to `Fixed (FixedSequence Sequence "ATGC")`; and a
fixed-sequence literal containing any character outside `{A, T, G, C}`
between its brackets is a parse failure. -/
theorem c6_primitive_parses :
    pBounded "b[8]".toList =
      .ok (BoundedSegment.Fixed
        (Segment.FixedLength SegmentType.Barcode (SegmentData.Num 8))) [] ∧
    pBounded "f[ATGC]".toList =
      .ok (BoundedSegment.Fixed
        (Segment.FixedSequence SegmentType.Sequence (SegmentData.Sequence "ATGC"))) [] ∧
    (∀ s : List Char, (∃ c ∈ s, isNucleotide c = false) → ']' ∉ s →
      pBounded ('f' :: '[' :: (s ++ [']'])) = .fail) := by
  refine ⟨by decide, by decide, ?_⟩
  intro s hbad hnb
  obtain ⟨c0, r0, hdrop, hc0mem, hc0P⟩ := dropWhile_first_false isNucleotide s hbad
  have hne : s.dropWhile isNucleotide ≠ [] := by rw [hdrop]; simp
  have happ : (s ++ [']']).dropWhile isNucleotide = c0 :: (r0 ++ [']']) := by
    rw [dropWhile_append_of_ne_nil _ s [']'] hne, hdrop]
    rfl
  have hc0ne : c0 ≠ ']' := fun h => hnb (h ▸ hc0mem)
  have hwff : isWhitespaceRust 'f' = false := by decide
  have hfm : ¬ ('f' ∈ (['b', 'u', 'r', 'x'] : List Char)) := by decide
  have hrb : ('[' : Char) ≠ '<' := by decide
  simp [pBounded, pPadded, pOr, pMap, pMapExcept, pThen, pThenIgnore, pIgnoreThen,
    pDelimitedBy, pOrNot, pJust, pOneOf, pFixed, pFixedSequence, pRanged, pUnbounded,
    pLabel, pNucleotideSequence, skipWhitespace, List.dropWhile_cons, hwff, hfm,
    hrb, happ, hc0ne]

/-- Witness for C6's rejection clause: `"f[AXG]"` fails to parse, because
`X` is not a nucleotide. -/
theorem c6_witness : pBounded ('f' :: '[' :: (['A', 'X', 'G'] ++ [']'])) = .fail :=
  c6_primitive_parses.2.2 ['A', 'X', 'G'] ⟨'X', by decide, by decide⟩ (by decide)

end Seqproc
